import Mathlib

/-!
Shallow embedding of the market-aggregation pipeline of the tdex-explorer
repository, together with theorems settling the frozen claims about it.

Conventions of the embedding:
* JavaScript values that may be `undefined` or `null` are modelled with
  `Option`; a field the runtime object may lack is an `Option` field.
* JavaScript numbers that are only carried around (never computed with)
  are modelled as `Int`; the numeric pipeline of `formatDecimals` is
  modelled over exact fractions (`JsNum`), which agrees with the IEEE-double
  semantics on the inputs the claims are about.
* Asynchronous fetches are modelled by a deterministic network oracle
  (a structure of functions); `Promise.all(xs.map(f))` over such an oracle
  is `xs.map f`.
* Identity (`===`) of market objects taken from one listing array is
  modelled by tagging each listing element with its index.
-/

namespace TDEX

/-- Balance payload `\x7b baseAmount, quoteAmount \x7d` as it appears on the wire. -/
structure Balance where
  baseAmount : String
  quoteAmount : String
  deriving Repr, DecidableEq

/-- Runtime shape of the `balance` property of a price payload: a v2 response
carries the amounts directly (`flat`), a v1 response nests them one level
deeper as `balance.balance` (`nested`); `isPriceV1Result` in apiUtils.ts
discriminates exactly on that nesting. -/
inductive BalanceField where
  | flat (b : Balance)
  | nested (b : Balance)
  deriving Repr, DecidableEq

/-- Runtime shape of a price payload (`PriceDetails`): each property may be
absent on the wire, hence the `Option` fields. -/
structure PriceObj where
  spotPrice : Option Int
  minTradableAmount : Option String
  balance : Option BalanceField
  deriving Repr, DecidableEq

/-- The nested `market` property of a wire market record (asset pair). -/
structure MarketIds where
  baseAsset : String
  quoteAsset : String
  deriving Repr, DecidableEq

/-- Fee shape of a current-protocol (v2) market:
`\x7b fixedFee: \x7bbaseAsset, quoteAsset\x7d, percentageFee: \x7bbaseAsset, quoteAsset\x7d \x7d`. -/
structure FeeV2 where
  percentageFeeBaseAsset : String
  percentageFeeQuoteAsset : String
  fixedFeeBaseAsset : String
  fixedFeeQuoteAsset : String
  deriving Repr, DecidableEq

/-- Fee shape of a legacy (v1) market:
`\x7b fixed: \x7bbaseFee, quoteFee\x7d, basisPoint \x7d`. -/
structure FeeV1 where
  fixedBaseFee : String
  fixedQuoteFee : String
  basisPoint : String
  deriving Repr, DecidableEq

/-- A market record carries either fee shape; the code discriminates with the
type guard `isMarketV1` (presence of `fee.basisPoint`). -/
inductive MarketFee where
  | v2 (f : FeeV2)
  | v1 (f : FeeV1)
  deriving Repr, DecidableEq

/-- Wire `Market` record: top-level asset pair, fee structure, and the
optional nested `market` property (asset pair as some providers ship it). -/
structure Market where
  baseAsset : String
  quoteAsset : String
  fee : MarketFee
  market : Option MarketIds
  deriving Repr, DecidableEq

/-- Type guard `isMarketV1` from apiUtils.ts: true iff `fee.basisPoint` is present. -/
def isMarketV1 (m : Market) : Bool :=
  match m.fee with
  | .v1 _ => true
  | .v2 _ => false

/-- `PriceResult` of apiUtils.ts. `marketRef` models the JS object reference to
the listing-array element this result was built from (`priceResults.find(r =>
r.market === market)` compares references); `v1` models the dynamically added
`v1` property (absent unless the balance-splice loop sets it). -/
structure PriceResult where
  marketRef : Nat
  market : Market
  price : Option PriceObj
  error : Option String
  v1 : Option Bool
  deriving Repr, DecidableEq

/-- The `balance` property reached through `result.price?.balance`. -/
def priceBalance (r : PriceResult) : Option BalanceField :=
  r.price.bind PriceObj.balance

/-- Type guard `isPriceV1Result`: `result.price?.balance?.balance !== undefined`,
i.e. the balance payload has the nested v1 shape; returns the nested amounts. -/
def nestedBalance (r : PriceResult) : Option Balance :=
  match priceBalance r with
  | some (.nested b) => some b
  | _ => none

/-- Type guard `isV1Result`: `result.v1 !== undefined`. -/
def isV1Result (r : PriceResult) : Bool :=
  r.v1.isSome

/-- Merged balances of a `MarketData` record (`\x7bbaseAmount, quoteAmount\x7d | null`). -/
structure Balances where
  baseAmount : String
  quoteAmount : String
  deriving Repr, DecidableEq

/-- One fee entry of the merged record. -/
structure FeeOut where
  fixed : String
  percentage : String
  deriving Repr, DecidableEq

/-- Fees of the merged record. -/
structure FeesOut where
  baseFee : FeeOut
  quoteFee : FeeOut
  deriving Repr, DecidableEq

/-- Merged per-market output record (`MarketData` of types.ts, plus the `v1`
flag `formatMarketData` adds). -/
structure MarketData where
  baseAsset : String
  quoteAsset : String
  balances : Option Balances
  spotPrice : Option Int
  minTradeableAmount : String
  fees : FeesOut
  v1 : Option Bool
  deriving Repr, DecidableEq

/-- `ErrorObject` of types.ts. -/
structure ErrorObject where
  status : String
  message : Option String
  endpoint : String
  deriving Repr, DecidableEq

/-- The `endpoint` component of one aggregation result (`ResultData.endpoint`). -/
structure EndpointResult where
  url : String
  data : List MarketData
  deriving Repr, DecidableEq

/-- One element of the `Results` array produced by `fetchAndProcessMarketData`. -/
structure ProcessResult where
  endpoint : EndpointResult
  errors : List ErrorObject
  deriving Repr, DecidableEq

/-- Outcome of one `fetchMarketData` probe (`FetchMarketDataResponse`): either
an `error` string, or a response whose `data` may be present or absent. -/
inductive ProbeResult (α : Type) where
  | err (msg : String)
  | ok (data : Option α)
  deriving Repr, DecidableEq

/-- Deterministic network oracle: the responses the three probe paths of the
endpoint prober return for a given endpoint (and market).  A `/markets` probe
yields the listing (`data.markets`), the `/market/price` and `/market/balance`
probes yield a price-shaped payload. -/
structure Net where
  listing : String → ProbeResult (List Market)
  price : String → Market → ProbeResult PriceObj
  balance : String → Market → ProbeResult PriceObj

/-- `handleMarketError` of apiUtils.ts. -/
def handleMarketError (endpoint : String) (error : String) : ErrorObject :=
  { status := "Endpoint not available", message := some error, endpoint := endpoint }

/-- `handlePriceError` of apiUtils.ts. -/
def handlePriceError (endpoint : String) (error : String) : ErrorObject :=
  { status := "Market not available", message := some error, endpoint := endpoint }

/-- `processMarketError` of apiUtils.ts. -/
def processMarketError (endpoint : String) (error : String) : ProcessResult :=
  { endpoint := { url := endpoint, data := [] },
    errors := [handleMarketError endpoint error] }

/-- Tags each listing element with its array index, modelling JS object
identity of the elements of one `markets` array. -/
def tagFrom : Nat → List Market → List (Nat × Market)
  | _, [] => []
  | n, m :: ms => (n, m) :: tagFrom (n + 1) ms

/-- `fetchPriceDataForMarkets`: one `/market/price` probe per market;
an errored probe yields `\x7bmarket, price: null, error\x7d`, otherwise
`\x7bmarket, price: data ?? null, error: null\x7d`. -/
def fetchPriceDataForMarkets (net : Net) (endpoint : String)
    (markets : List (Nat × Market)) : List PriceResult :=
  markets.map fun im =>
    match net.price endpoint im.2 with
    | .err e => { marketRef := im.1, market := im.2, price := none, error := some e, v1 := none }
    | .ok d => { marketRef := im.1, market := im.2, price := d, error := none, v1 := none }

/-- `fetchBalanceDataForMarkets`: same shape as the price fetch, against
`/market/balance`. -/
def fetchBalanceDataForMarkets (net : Net) (endpoint : String)
    (markets : List (Nat × Market)) : List PriceResult :=
  markets.map fun im =>
    match net.balance endpoint im.2 with
    | .err e => { marketRef := im.1, market := im.2, price := none, error := some e, v1 := none }
    | .ok d => { marketRef := im.1, market := im.2, price := d, error := none, v1 := none }

/-- One iteration of the balance-splice loop of `fetchAndProcessMarketData`
(lines 201-220 of apiUtils.ts) for a single price result.  If
`result.price?.balance === undefined` it fetches balances for ALL the
endpoint markets, looks up the one matching this result by asset pair and,
when that balance has the nested v1 shape, sets `result.v1 = true` and
splices the balance into `result.price`.  The second component is the list
of markets for which a `/market/balance` probe was issued. -/
def spliceBalance (net : Net) (endpoint : String) (markets : List (Nat × Market))
    (result : PriceResult) : PriceResult × List Market :=
  if (priceBalance result).isNone then
    let balances := fetchBalanceDataForMarkets net endpoint markets
    let balanceForMarket := balances.find? fun b =>
      b.market.baseAsset == result.market.baseAsset &&
      b.market.quoteAsset == result.market.quoteAsset
    match balanceForMarket with
    | some bm =>
      match nestedBalance bm with
      | some inner =>
        ({ result with
            v1 := some true,
            price := some
              { spotPrice := some ((result.price.bind PriceObj.spotPrice).getD 0),
                minTradableAmount :=
                  some ((result.price.bind PriceObj.minTradableAmount).getD "N/A"),
                balance := some (.flat { baseAmount := inner.baseAmount,
                                         quoteAmount := inner.quoteAmount }) } },
         markets.map Prod.snd)
      | none => (result, markets.map Prod.snd)
    | none => (result, markets.map Prod.snd)
  else (result, [])

/-- The whole balance-splice loop: each price result is updated independently
(the loop mutates only the element it inspects); the second component
concatenates the balance probes issued. -/
def spliceBalances (net : Net) (endpoint : String) (markets : List (Nat × Market))
    (priceResults : List PriceResult) : List PriceResult × List Market :=
  ((priceResults.map (spliceBalance net endpoint markets)).map Prod.fst,
   (priceResults.map (spliceBalance net endpoint markets)).flatMap Prod.snd)

/-- The merged record `formatMarketData` builds for one listing element
`(i, market)` from the price results (lookup by object identity, i.e. tag). -/
def formatOneMarket (priceResults : List PriceResult) (im : Nat × Market) : MarketData :=
  let priceResult := priceResults.find? fun r => r.marketRef == im.1
  let flatBal : Option Balance :=
    match priceResult.bind priceBalance with
    | some (.flat b) => some b
    | _ => none
  let baseAsset : String :=
    ((priceResult.bind fun r => r.market.market).map MarketIds.baseAsset).getD "N/A"
  let quoteAsset : String :=
    ((priceResult.bind fun r => r.market.market).map MarketIds.quoteAsset).getD "N/A"
  let baseAssetBalance : String := (flatBal.map Balance.baseAmount).getD "N/A"
  let quoteAssetBalance : String := (flatBal.map Balance.quoteAmount).getD "N/A"
  let spotPrice : Option Int := (priceResult.bind PriceResult.price).bind PriceObj.spotPrice
  let minTradeableAmount : String :=
    ((priceResult.bind PriceResult.price).bind PriceObj.minTradableAmount).getD "N/A"
  let fees : FeesOut :=
    match im.2.fee with
    | .v1 f =>
      { baseFee := { fixed := f.fixedBaseFee, percentage := f.basisPoint },
        quoteFee := { fixed := f.fixedQuoteFee, percentage := f.basisPoint } }
    | .v2 f =>
      { baseFee := { fixed := f.fixedFeeBaseAsset, percentage := f.percentageFeeBaseAsset },
        quoteFee := { fixed := f.fixedFeeQuoteAsset, percentage := f.percentageFeeQuoteAsset } }
  let v1 : Option Bool :=
    match priceResult with
    | some r => match r.v1 with
      | some b => some b
      | none => some false
    | none => some false
  { baseAsset := baseAsset,
    quoteAsset := quoteAsset,
    balances := some { baseAmount := baseAssetBalance, quoteAmount := quoteAssetBalance },
    spotPrice := spotPrice,
    minTradeableAmount := minTradeableAmount,
    fees := fees,
    v1 := v1 }

/-- `formatMarketData` of apiUtils.ts over the tagged listing. -/
def formatMarketData (markets : List (Nat × Market)) (priceResults : List PriceResult) :
    List MarketData :=
  markets.map (formatOneMarket priceResults)

/-- The successful-listing branch of the `endpoints.map` callback of
`fetchAndProcessMarketData`: price fan-out, balance-splice loop, merge,
and the per-market error collection. -/
def processMarkets (net : Net) (endpoint : String) (markets : List Market) : ProcessResult :=
  let tagged := tagFrom 0 markets
  let priceResults0 := fetchPriceDataForMarkets net endpoint tagged
  let priceResults := (spliceBalances net endpoint tagged priceResults0).1
  let data := formatMarketData tagged priceResults
  let priceErrors :=
    (priceResults.filter fun r => r.error.isSome).map fun r =>
      handlePriceError endpoint (r.error.getD "")
  { endpoint := { url := endpoint, data := data }, errors := priceErrors }

/-- Aggregation for a single endpoint: the body of the `endpoints.map`
callback of `fetchAndProcessMarketData`. -/
def processEndpoint (net : Net) (endpoint : String) : ProcessResult :=
  match net.listing endpoint with
  | .err e => processMarketError endpoint e
  | .ok none => processMarketError endpoint "An unexpected error occurred. Try to reload the page!"
  | .ok (some markets) => processMarkets net endpoint markets

/-- The `/market/balance` probes issued while aggregating one endpoint. -/
def balanceProbeTrace (net : Net) (endpoint : String) : List Market :=
  match net.listing endpoint with
  | .err _ => []
  | .ok none => []
  | .ok (some markets) =>
    let tagged := tagFrom 0 markets
    (spliceBalances net endpoint tagged (fetchPriceDataForMarkets net endpoint tagged)).2

/-- `fetchAndProcessMarketData`: `Promise.all` over the per-endpoint
aggregations, one entry per input endpoint in input order. -/
def fetchAndProcessMarketData (net : Net) (endpoints : List String) : List ProcessResult :=
  endpoints.map (processEndpoint net)

/-! ## lib/utils.ts -/

/-- `torProxyUrl` from config/config.ts. -/
def torProxyUrl : String := "https://proxy.tdex.network/"

/-- Splitting a character list on each non-overlapping occurrence of a
nonempty separator, scanning left to right (the semantics of both
`String.split` in JS and `String.splitOn`); the first argument is fuel,
instantiated with the length of the list. -/
def splitOnCharsFuel (sep : List Char) : Nat → List Char → List Char → List (List Char)
  | _, [], acc => [acc.reverse]
  | 0, xs, acc => [acc.reverse ++ xs]
  | fuel + 1, x :: xs, acc =>
    if sep.isPrefixOf (x :: xs) then
      acc.reverse :: splitOnCharsFuel sep fuel ((x :: xs).drop sep.length) []
    else splitOnCharsFuel sep fuel xs (x :: acc)

/-- `s.split(sep)` of JS for a nonempty separator. -/
def strSplitOn (s sep : String) : List String :=
  (splitOnCharsFuel sep.toList s.toList.length s.toList []).map String.mk

/-- `s.endsWith(suffix)` of JS. -/
def strEndsWith (s suffix : String) : Bool :=
  suffix.toList.isSuffixOf s.toList

/-- `s.startsWith(p)` of JS. -/
def strStartsWith (s p : String) : Bool :=
  p.toList.isPrefixOf s.toList

/-- Components `new URL(url)` exposes, as far as the code consumes them. -/
structure URLParts where
  scheme : String
  hostname : String
  port : Option String
  pathname : String
  search : String
  deriving Repr, DecidableEq

/-- Characters our modelled parser accepts in a hostname. -/
def isHostChar (c : Char) : Bool :=
  c.isAlphanum || c == '.' || c == '-' || c == '_'

/-- Characters our modelled parser accepts in a path (no percent-encoding,
no dot segments, so WHATWG normalisation is the identity on them). -/
def isPathChar (c : Char) : Bool :=
  c.isAlphanum || c == '/' || c == '-' || c == '_'

/-- Modelled subset of the WHATWG parser behind `new URL`: http(s) URLs whose
host and path stay within the character sets above (the shapes the app
builds and validates with its `isValidUrl` pattern).  The hostname is
lowercased as the real parser does; an empty path reads back as `"/"`; the
query lands in `search` and never in `pathname`; `none` models the
`TypeError` the real constructor throws. -/
def parseURL (url : String) : Option URLParts :=
  let core :=
    if strStartsWith url "https://" then some ("https", url.toList.drop 8)
    else if strStartsWith url "http://" then some ("http", url.toList.drop 7)
    else none
  match core with
  | none => none
  | some (scheme, restL) =>
    let authority := restL.takeWhile fun c => !(c == '/' || c == '?' || c == '#')
    let afterAuth := restL.drop authority.length
    let hostL := authority.takeWhile fun c => !(c == ':')
    let portL := authority.drop hostL.length
    let portOk :=
      match portL with
      | [] => some none
      | ':' :: ds => if ds ≠ [] ∧ ds.all Char.isDigit then some (some (String.mk ds)) else none
      | _ => none
    let pathL := afterAuth.takeWhile fun c => !(c == '?' || c == '#')
    let afterPath := afterAuth.drop pathL.length
    let searchL := afterPath.takeWhile fun c => !(c == '#')
    let pathname := if pathL = [] then "/" else String.mk pathL
    match portOk with
    | none => none
    | some port =>
      if hostL ≠ [] ∧ hostL.all isHostChar ∧ pathL.all isPathChar then
        some { scheme := scheme,
               hostname := String.mk (hostL.map Char.toLower),
               port := port,
               pathname := pathname,
               search := String.mk searchL }
      else none

/-- `getProxyUrl` of lib/utils.ts.  `none` models the uncaught exception of
`new URL` on an unparsable input; `hostname.split(".onion")[0]` (the part
before the first `.onion`) is `(splitOn ".onion").headD ""`. -/
def getProxyUrl (url : String) : Option String :=
  match parseURL url with
  | none => none
  | some u =>
    if strEndsWith u.hostname ".onion" then
      some (torProxyUrl ++ (strSplitOn u.hostname ".onion").headD "" ++ u.pathname)
    else some url

/-- Exact-fraction model of a JS number: the value is `num / den` with `den`
positive.  The numeric pipeline of `formatDecimals` only parses, divides by a
power of ten, compares with zero and rounds, and on the inputs the claims use
this exact model agrees with the IEEE-double semantics of the source. -/
structure JsNum where
  num : Int
  den : Int
  deriving Repr, DecidableEq

/-- Result of the JS numeric coercion in `formatDecimals`
(`parseFloat` on strings): `none` models `NaN`.  Only plain nonempty digit
strings are modelled (the inputs the claims use). -/
def jsParseFloat (s : String) : Option JsNum :=
  if s.length > 0 ∧ s.toList.all Char.isDigit then
    some { num := Int.ofNat (s.toList.foldl (fun acc c => acc * 10 + (c.toNat - 48)) 0),
           den := 1 }
  else none

/-- `x === 0` on the fraction model. -/
def JsNum.isZero (x : JsNum) : Bool := x.num == 0

/-- `x / 10^p`, the division by `factor` in `formatDecimals`. -/
def JsNum.divPow10 (x : JsNum) (p : Nat) : JsNum :=
  { num := x.num, den := x.den * Int.ofNat (10 ^ p) }

/-- Left-pads a digit string with zeros to the given length. -/
def padZeros (s : String) (n : Nat) : String :=
  String.mk (List.replicate (n - s.length) '0' ++ s.toList)

/-- `Number.prototype.toFixed(p)` on the exact value `x = num / den`: the
integer `n` minimising `|n / 10^p - x|`, ties to the larger `n` (as the
ECMAScript specification picks), i.e. `⌊x·10^p + 1/2⌋`, computed as a floor
division and rendered with exactly `p` fraction digits. -/
def toFixed (x : JsNum) (p : Nat) : String :=
  let scaled : Int := Int.fdiv (2 * x.num * Int.ofNat (10 ^ p) + x.den) (2 * x.den)
  let sign := if scaled < 0 then "-" else ""
  let digits := (padZeros (toString scaled.natAbs) (p + 1)).toList
  if p = 0 then sign ++ toString scaled.natAbs
  else
    sign ++ String.mk (digits.take (digits.length - p)) ++ "." ++
      String.mk (digits.drop (digits.length - p))

/-- The two trailing regex replaces of `formatDecimals`
(the pattern dot-digits-nonzero-digit-zeros anchored at the end, then a
trailing lone dot): on a rendering `int.frac` they strip the trailing zeros
of the fraction when a nonzero fraction digit precedes them, and leave an
all-zero fraction alone. -/
def stripTrailingZeros (s : String) : String :=
  match strSplitOn s "." with
  | [ip, fp] =>
    let fpKept := String.mk (fp.toList.reverse.dropWhile (fun c => c == '0')).reverse
    if fpKept = "" then s else ip ++ "." ++ fpKept
  | _ => s

/-- `formatDecimals` of lib/utils.ts over the coerced numeric value
(`none` = `NaN`). -/
def formatDecimals (value : Option JsNum) (precision : Nat) : String :=
  match value with
  | none => "N/A"
  | some numericValue =>
    if numericValue.isZero then "0"
    else
      let decimalValue := numericValue.divPow10 precision
      let formattedValue := toFixed decimalValue precision
      let parts := strSplitOn formattedValue "."
      let allZerosAfterDecimal : Bool :=
        match parts with
        | [_, fp] => fp.toList.all fun c => c == '0'
        | _ => false
      if precision ≥ 3 then
        if allZerosAfterDecimal then
          match parts with
          | [ip, fp] =>
            ip ++ "." ++ String.mk (fp.toList.take 1) ++
              String.mk (List.replicate (precision - 2) '*') ++
              String.mk (fp.toList.drop (fp.toList.length - 1))
          | _ => formattedValue
        else stripTrailingZeros formattedValue
      else stripTrailingZeros formattedValue

/-- `formatDecimals` on a string-typed `value` argument. -/
def formatDecimalsStr (value : String) (precision : Nat) : String :=
  formatDecimals (jsParseFloat value) precision

/-- `Provider` of types.ts. -/
structure Provider where
  name : String
  endpoint : String
  onion : Bool
  deriving Repr, DecidableEq

/-- One value of the `ResultObject` mapping: an endpoint market list plus
the optional provider name. -/
structure EndpointEntry where
  markets : List MarketData
  providerName : Option String
  deriving Repr, DecidableEq

/-- `ResultObject` of types.ts: a JS object keyed by endpoint URL, modelled
as an association list with distinct keys. -/
abbrev ResultObject := List (String × EndpointEntry)

/-- Value of the JS optional chain `market.balances?.baseAmount`: a string,
or `undefined` when `balances` is `null`. -/
def balancesBase (m : MarketData) : Option String :=
  m.balances.map Balances.baseAmount

/-- Value of `market.balances?.quoteAmount`. -/
def balancesQuote (m : MarketData) : Option String :=
  m.balances.map Balances.quoteAmount

/-- The strict comparison `x !== null` applied to the value of an optional
chain on the typed data: that value is either a string or `undefined`, and
in JS neither of those is `null`, so the comparison holds for every value
this field can take. -/
def jsNeqNull (_ : Option String) : Bool := true

/-- The tradable filter of `calculateReachableProvidersAndTotalMarkets`:
`market.balances?.baseAmount !== null && market.balances?.quoteAmount !== null`. -/
def isTradableJS (m : MarketData) : Bool :=
  jsNeqNull (balancesBase m) && jsNeqNull (balancesQuote m)

/-- Result triple of the stats summarizer. -/
structure DashboardStats where
  reachableProviders : List Provider
  totalMarkets : Nat
  tradableMarkets : Nat
  deriving Repr, DecidableEq

/-- `calculateReachableProvidersAndTotalMarkets` of lib/utils.ts. -/
def calculateReachableProvidersAndTotalMarkets (providers : List Provider)
    (errors : List ErrorObject) (marketResults : ResultObject) : DashboardStats :=
  let reachableProviders := providers.filter fun provider =>
    !(errors.any fun error =>
      error.endpoint == provider.endpoint && error.status == "Endpoint not available")
  let totalMarkets := marketResults.foldl (fun acc kv => acc + kv.2.markets.length) 0
  let tradableMarkets := marketResults.foldl
    (fun acc kv => acc + (kv.2.markets.filter isTradableJS).length) 0
  { reachableProviders := reachableProviders,
    totalMarkets := totalMarkets,
    tradableMarkets := tradableMarkets }

/-- JSON string quoting; the embedded data is assumed to need no escapes. -/
def jsonStr (s : String) : String := "\"" ++ s ++ "\""

/-- JSON rendering of a nullable number. -/
def jsonNum : Option Int → String
  | some n => toString n
  | none => "null"

/-- `JSON.stringify` of the `balances` field. -/
def serializeBalances : Option Balances → String
  | none => "null"
  | some b =>
    "\x7b" ++ jsonStr "baseAmount" ++ ":" ++ jsonStr b.baseAmount ++ "," ++
      jsonStr "quoteAmount" ++ ":" ++ jsonStr b.quoteAmount ++ "\x7d"

/-- `JSON.stringify` of one fee entry. -/
def serializeFeeOut (f : FeeOut) : String :=
  "\x7b" ++ jsonStr "fixed" ++ ":" ++ jsonStr f.fixed ++ "," ++
    jsonStr "percentage" ++ ":" ++ jsonStr f.percentage ++ "\x7d"

/-- `JSON.stringify` of one merged market record, fields in construction
order; an `undefined` `v1` is omitted as `JSON.stringify` drops it. -/
def serializeMarketData (m : MarketData) : String :=
  "\x7b" ++ jsonStr "baseAsset" ++ ":" ++ jsonStr m.baseAsset ++ "," ++
    jsonStr "quoteAsset" ++ ":" ++ jsonStr m.quoteAsset ++ "," ++
    jsonStr "balances" ++ ":" ++ serializeBalances m.balances ++ "," ++
    jsonStr "spotPrice" ++ ":" ++ jsonNum m.spotPrice ++ "," ++
    jsonStr "minTradeableAmount" ++ ":" ++ jsonStr m.minTradeableAmount ++ "," ++
    jsonStr "fees" ++ ":" ++
      "\x7b" ++ jsonStr "baseFee" ++ ":" ++ serializeFeeOut m.fees.baseFee ++ "," ++
        jsonStr "quoteFee" ++ ":" ++ serializeFeeOut m.fees.quoteFee ++ "\x7d" ++
    (match m.v1 with
     | some b => "," ++ jsonStr "v1" ++ ":" ++ (if b then "true" else "false")
     | none => "") ++ "\x7d"

/-- Joins the serialized elements with commas, as `JSON.stringify` does. -/
def joinComma : List String → String
  | [] => ""
  | [x] => x
  | x :: xs => x ++ "," ++ joinComma xs

/-- `JSON.stringify(markets)`, the grouping key of `findDuplicateMarkets`. -/
def serializeMarkets (ms : List MarketData) : String :=
  "[" ++ joinComma (ms.map serializeMarketData) ++ "]"

/-- Value type of both maps `findDuplicateMarkets` builds.  `names` holds
`Option String` because the code pushes `providerName!`, whose runtime value
is the possibly-undefined provider name. -/
structure DupEntry where
  endpoints : List String
  names : List (Option String)
  deriving Repr, DecidableEq

/-- A JS `Map` with string keys, modelled as an association list whose keys
are distinct by construction. -/
abbrev DupMap := List (String × DupEntry)

/-- `map.get(k)` (`undefined` when absent). -/
def lookupEntry (m : DupMap) (k : String) : Option DupEntry :=
  (m.find? fun kv => kv.1 == k).map Prod.snd

/-- The endpoints list of the entry of `k`, `[]` when absent. -/
def epsOf (m : DupMap) (k : String) : List String :=
  ((lookupEntry m k).map DupEntry.endpoints).getD []

/-- The combined `if (!map.has(k)) map.set(k, \x7bendpoints: [], names: []\x7d)`
followed by pushing `eps`/`ns` onto the entry of `k`. -/
def pushAt (m : DupMap) (k : String) (eps : List String) (ns : List (Option String)) :
    DupMap :=
  if (m.find? fun kv => kv.1 == k).isSome then
    m.map fun kv =>
      if kv.1 == k then (kv.1, ⟨kv.2.endpoints ++ eps, kv.2.names ++ ns⟩) else kv
  else m ++ [(k, ⟨eps, ns⟩)]

/-- Loop state of `findDuplicateMarkets`: the registry keyed by serialized
market data and the duplicates map keyed by endpoint. -/
structure DupState where
  marketDataMap : DupMap
  duplicates : DupMap

/-- Body of the `Object.entries(marketResults).forEach` of
`findDuplicateMarkets`: skip empty market lists; on a known serialization
cross-link the current endpoint with the registered endpoints (the `forEach`
over `originalEndpoints`); otherwise register the serialization. -/
def findDupStep (st : DupState) (kv : String × EndpointEntry) : DupState :=
  if kv.2.markets.isEmpty then st
  else
    let key := serializeMarkets kv.2.markets
    match lookupEntry st.marketDataMap key with
    | some orig =>
      let dup1 := pushAt st.duplicates kv.1 orig.endpoints orig.names
      let dup2 := orig.endpoints.foldl
        (fun d oe => pushAt d oe [kv.1] [kv.2.providerName]) dup1
      { marketDataMap := st.marketDataMap, duplicates := dup2 }
    | none =>
      { marketDataMap := st.marketDataMap ++ [(key, ⟨[kv.1], [kv.2.providerName]⟩)],
        duplicates := st.duplicates }

/-- `findDuplicateMarkets` of lib/utils.ts. -/
def findDuplicateMarkets (marketResults : ResultObject) : DupMap :=
  (marketResults.foldl findDupStep ⟨[], []⟩).duplicates

/-! ## Asset resolver (fetchFunctions.ts and the fetchAllAssetsData action) -/

/-- `lbtcHash` from config/config.ts. -/
def lbtcHash : String := "6f0279e9ed041c3d710a9f57d0c02928416460c4b722ae3457a11eec381c526d"

/-- The JSON body an asset lookup returns: `name` or `precision` may be
missing, `mempool_stats` is opaque JSON (carried as a string). -/
structure AssetRaw where
  name : Option String
  precision : Option Nat
  mempool_stats : String
  deriving Repr, DecidableEq

/-- A resolved `AssetInfo`. -/
structure AssetInfo where
  name : String
  precision : Nat
  mempool_stats : String
  deriving Repr, DecidableEq

/-- `fetchAssetData` of fetchFunctions.ts over an asset-lookup oracle
(`none` = the promise rejected: non-ok response or thrown error).  The
hardcoded L-BTC override replaces name and precision but passes the fetched
`mempool_stats` through. -/
def fetchAssetData (netAsset : String → Option AssetRaw) (assetHash : String) :
    Option (String × AssetRaw) :=
  match netAsset assetHash with
  | none => none
  | some data =>
    if assetHash == lbtcHash then
      some (assetHash, { name := some "L-BTC", precision := some 8,
                         mempool_stats := data.mempool_stats })
    else some (assetHash, data)

/-- The JS `Set` accumulation of asset hashes: append if not seen. -/
def jsSetAdd (seen : List String) (x : String) : List String :=
  if x ∈ seen then seen else seen ++ [x]

/-- Step 1 of `fetchAllAssetsData`: the distinct base/quote asset hashes of
all markets, in insertion order. -/
def collectAssetHashes (marketResults : ResultObject) : List String :=
  (marketResults.flatMap fun kv =>
    kv.2.markets.flatMap fun m => [m.baseAsset, m.quoteAsset]).foldl jsSetAdd []

/-- Steps 2-4 of `fetchAllAssetsData` for one hash: fetch, drop a rejected
lookup, then drop the entry unless `assetHash`, `name` and `precision` are
all truthy (`!assetHash || !name || !precision` skips; note `""` and `0`
are falsy in JS). -/
def assetMapEntry (netAsset : String → Option AssetRaw) (h : String) :
    Option (String × AssetInfo) :=
  match fetchAssetData netAsset h with
  | none => none
  | some (assetHash, raw) =>
    match raw.name, raw.precision with
    | some name, some precision =>
      if assetHash ≠ "" ∧ name ≠ "" ∧ precision ≠ 0 then
        some (assetHash, { name := name, precision := precision,
                           mempool_stats := raw.mempool_stats })
      else none
    | _, _ => none

/-- `fetchAllAssetsData` of the server action: the `Map` built by inserting
each deduplicated hash's surviving entry in order (keys are distinct, so the
`Map.set` calls never overwrite). -/
def fetchAllAssetsData (netAsset : String → Option AssetRaw)
    (marketResults : ResultObject) : List (String × AssetInfo) :=
  (collectAssetHashes marketResults).flatMap fun h =>
    match assetMapEntry netAsset h with
    | some e => [e]
    | none => []

/-- `map.get(h)` on the asset map. -/
def lookupAsset (m : List (String × AssetInfo)) (h : String) : Option AssetInfo :=
  (m.find? fun kv => kv.1 == h).map Prod.snd

/-! ## Per-endpoint version consensus (ProviderMarketData.tsx) -/

/-- The three-way consensus the UI computes from the `v1` flags of an
endpoint's merged records: `true` iff non-empty and all `=== true`,
`false` iff non-empty and all `=== false`, `undefined` otherwise. -/
def v1Consensus (statuses : List (Option Bool)) : Option Bool :=
  if statuses.length > 0 ∧ statuses.all fun s => s == some true then some true
  else if statuses.length > 0 ∧ statuses.all fun s => s == some false then some false
  else none

/-! ## Supporting lemmas -/

theorem tagFrom_nil (n : Nat) : tagFrom n [] = [] := rfl

theorem tagFrom_cons (n : Nat) (m : Market) (ms : List Market) :
    tagFrom n (m :: ms) = (n, m) :: tagFrom (n + 1) ms := rfl

theorem tagFrom_getElem? (n : Nat) (ms : List Market) (i : Nat) :
    (tagFrom n ms)[i]? = ms[i]?.map fun m => (n + i, m) := by
  induction ms generalizing n i with
  | nil => rw [tagFrom_nil]; cases i <;> rfl
  | cons m ms ih =>
    cases i with
    | zero => rw [tagFrom_cons]; simp
    | succ j =>
      rw [tagFrom_cons, List.getElem?_cons_succ, List.getElem?_cons_succ, ih (n + 1) j]
      have harith : n + 1 + j = n + (j + 1) := by omega
      rw [harith]

theorem tagFrom_length (n : Nat) (ms : List Market) :
    (tagFrom n ms).length = ms.length := by
  induction ms generalizing n with
  | nil => rfl
  | cons m ms ih =>
    rw [tagFrom_cons, List.length_cons, List.length_cons, ih (n + 1)]

theorem tagFrom_map_snd (n : Nat) (ms : List Market) :
    (tagFrom n ms).map Prod.snd = ms := by
  induction ms generalizing n with
  | nil => rfl
  | cons m ms ih =>
    rw [tagFrom_cons, List.map_cons, ih (n + 1)]

/-- `find?` over a list whose elements carry their position (starting at `s`)
in `marketRef` locates exactly the element at the searched position. -/
theorem find?_marketRef (l : List PriceResult) (s : Nat)
    (h : ∀ j r, l[j]? = some r → r.marketRef = s + j) (i : Nat) :
    (l.find? fun r => r.marketRef == i) = if s ≤ i then l[i - s]? else none := by
  induction l generalizing s with
  | nil => simp
  | cons r tl ih =>
    have hr : r.marketRef = s := by simpa using h 0 r (by simp)
    have htl : ∀ j x, tl[j]? = some x → x.marketRef = (s + 1) + j := by
      intro j x hx
      have := h (j + 1) x (by simpa using hx)
      omega
    by_cases hsi : (r.marketRef == i) = true
    · have heq : s = i := by
        have h2 := beq_iff_eq.mp hsi
        rw [hr] at h2
        exact h2
      subst heq
      simp [List.find?, hsi]
    · have hb : (r.marketRef == i) = false := by
        simpa using hsi
      have hne : s ≠ i := by
        intro he
        rw [← hr] at he
        rw [beq_iff_eq.mpr he] at hb
        exact Bool.noConfusion hb
      simp only [List.find?, hb]
      rw [ih (s + 1) htl]
      by_cases hle : s ≤ i
      · have h2 : s + 1 ≤ i := by omega
        have hd : i - s = (i - (s + 1)) + 1 := by omega
        rw [if_pos hle, if_pos h2, hd, List.getElem?_cons_succ]
      · have h2 : ¬ s + 1 ≤ i := by omega
        rw [if_neg hle, if_neg h2]

/-- The balance-splice step never changes which market a result refers to. -/
theorem spliceBalance_marketRef (net : Net) (endpoint : String)
    (markets : List (Nat × Market)) (r : PriceResult) :
    ((spliceBalance net endpoint markets r).1).marketRef = r.marketRef := by
  by_cases h : (priceBalance r).isNone
  · simp only [spliceBalance, if_pos h]
    split
    · split <;> rfl
    · rfl
  · simp only [spliceBalance, if_neg h]

/-- Each price result is tagged with the index of its market. -/
theorem fetchPriceDataForMarkets_marketRef (net : Net) (endpoint : String)
    (ms : List (Nat × Market)) (j : Nat) (r : PriceResult)
    (h : (fetchPriceDataForMarkets net endpoint ms)[j]? = some r) :
    ∃ im, ms[j]? = some im ∧ r.marketRef = im.1 := by
  unfold fetchPriceDataForMarkets at h
  rw [List.getElem?_map] at h
  cases him : ms[j]? with
  | none => rw [him] at h; simp at h
  | some im =>
    rw [him, Option.map_some'] at h
    injection h with h2
    refine ⟨im, rfl, ?_⟩
    rw [← h2]
    cases net.price endpoint im.2 <;> rfl

/-- The price results produced for one endpoint carry their index in
`marketRef`, before and after the balance-splice loop. -/
theorem pipeline_marketRef (net : Net) (endpoint : String) (markets : List Market)
    (j : Nat) (r : PriceResult)
    (h : ((spliceBalances net endpoint (tagFrom 0 markets)
        (fetchPriceDataForMarkets net endpoint (tagFrom 0 markets))).1)[j]? = some r) :
    r.marketRef = j := by
  have h1 : ((fetchPriceDataForMarkets net endpoint (tagFrom 0 markets)).map
      (spliceBalance net endpoint (tagFrom 0 markets))).map Prod.fst =
      (spliceBalances net endpoint (tagFrom 0 markets)
        (fetchPriceDataForMarkets net endpoint (tagFrom 0 markets))).1 := rfl
  rw [← h1, List.getElem?_map, List.getElem?_map] at h
  cases hx : (fetchPriceDataForMarkets net endpoint (tagFrom 0 markets))[j]? with
  | none => rw [hx] at h; simp at h
  | some x =>
    rw [hx] at h
    have h2 : (spliceBalance net endpoint (tagFrom 0 markets) x).1 = r := by
      simpa using h
    obtain ⟨im, him, href⟩ :=
      fetchPriceDataForMarkets_marketRef net endpoint (tagFrom 0 markets) j x hx
    rw [tagFrom_getElem?] at him
    cases hm : markets[j]? with
    | none => rw [hm] at him; simp at him
    | some m =>
      rw [hm] at him
      have him2 : (0 + j, m) = im := by simpa using him
      rw [← h2, spliceBalance_marketRef, href, ← him2]
      simp

/-- Length bookkeeping for the probe trace of the splice loop. -/
theorem flatMap_ite_length (l : List PriceResult) (p : PriceResult → Bool)
    (ms : List Market) :
    (l.flatMap fun r => if p r then ms else []).length =
      (l.filter p).length * ms.length := by
  induction l with
  | nil => simp
  | cons r tl ih =>
    by_cases h : p r <;> simp [h, ih, Nat.succ_mul, Nat.add_comm]

/-! ## Concrete fixtures -/

/-- A zero v2 fee. -/
def feeV2zero : FeeV2 := { percentageFeeBaseAsset := "0", percentageFeeQuoteAsset := "0",
                           fixedFeeBaseAsset := "0", fixedFeeQuoteAsset := "0" }

/-- A sample wire market. -/
def mA : Market := { baseAsset := "assetA", quoteAsset := "assetQ", fee := .v2 feeV2zero,
                     market := some { baseAsset := "assetA", quoteAsset := "assetQ" } }

/-- A second sample wire market with a different asset pair. -/
def mB : Market := { baseAsset := "assetB", quoteAsset := "assetQ", fee := .v2 feeV2zero,
                     market := some { baseAsset := "assetB", quoteAsset := "assetQ" } }

/-- A merged record with resolved balances. -/
def mdDup : MarketData :=
  { baseAsset := "assetA", quoteAsset := "assetQ",
    balances := some { baseAmount := "1", quoteAmount := "2" }, spotPrice := some 3,
    minTradeableAmount := "1",
    fees := { baseFee := { fixed := "0", percentage := "0" },
              quoteFee := { fixed := "0", percentage := "0" } },
    v1 := some false }

/-- Three endpoints serving byte-identical non-empty market data. -/
def roThreeDup : ResultObject :=
  [("http://a", { markets := [mdDup], providerName := some "A" }),
   ("http://b", { markets := [mdDup], providerName := some "B" }),
   ("http://c", { markets := [mdDup], providerName := some "C" })]

/-- The merged record `formatMarketData` produces for a market whose price
probe failed: placeholder balances, no spot price. -/
def mdNA : MarketData :=
  { baseAsset := "assetA", quoteAsset := "assetQ",
    balances := some { baseAmount := "N/A", quoteAmount := "N/A" }, spotPrice := none,
    minTradeableAmount := "N/A",
    fees := { baseFee := { fixed := "0", percentage := "0" },
              quoteFee := { fixed := "0", percentage := "0" } },
    v1 := some false }

/-- One endpoint whose only market carries placeholder balances. -/
def roPlaceholder : ResultObject :=
  [("http://a", { markets := [mdNA], providerName := some "A" })]

/-- An oracle on which every probe fails. -/
def netDown : Net :=
  { listing := fun _ => .err "down",
    price := fun _ _ => .err "down",
    balance := fun _ _ => .err "down" }

/-! ## Claims C2, C3, C7, C9, C10 -/

set_option maxRecDepth 40000 in
/-- C2: with three or more endpoints sharing one non-empty serialized market
signature, the claim (and the spec, which declares full transitive closure
the intended contract) requires every member to be cross-linked to every
other member.  The code instead links each later endpoint only to the first
registered endpoint, because the registry entry for the signature is never
extended: at the failing input of three identical endpoints a, b and c,
b's entry and c's entry both list only a, so b and c are not linked. -/
theorem claim_C2_code_bug :
    lookupEntry (findDuplicateMarkets roThreeDup) "http://b" =
      some { endpoints := ["http://a"], names := [some "A"] } ∧
    lookupEntry (findDuplicateMarkets roThreeDup) "http://c" =
      some { endpoints := ["http://a"], names := [some "A"] } ∧
    "http://c" ∉ epsOf (findDuplicateMarkets roThreeDup) "http://b" ∧
    "http://b" ∉ epsOf (findDuplicateMarkets roThreeDup) "http://c" ∧
    epsOf (findDuplicateMarkets roThreeDup) "http://a" = ["http://b", "http://c"] := by
  decide

/-- The count the C3 claim describes, written from the spec words: a market
is tradable when its merged balances are resolved, i.e. the `balances`
object is non-null and neither field is the placeholder. -/
def specTradableCount (marketResults : ResultObject) : Nat :=
  (marketResults.map fun kv =>
    (kv.2.markets.filter fun m =>
      match m.balances with
      | some b => !(b.baseAmount == "N/A") && !(b.quoteAmount == "N/A")
      | none => false).length).sum

/-- C3 counterexample: an endpoint whose only market has unresolved
placeholder balances.  The claim says such a market is not counted as
tradable (count 0); the code counts it (count 1), because the merged
balance fields are strings, and a string is never `=== null`. -/
theorem claim_C3_counterexample :
    (calculateReachableProvidersAndTotalMarkets [] [] roPlaceholder).tradableMarkets = 1 ∧
    specTradableCount roPlaceholder = 0 := by
  decide

/-- C3 amended: `tradableMarkets` always equals `totalMarkets`.  The filter
`market.balances?.baseAmount !== null && market.balances?.quoteAmount !== null`
never rejects a record: the optional chain evaluates to a string or to
`undefined`, and neither compares strictly equal to `null`, so unresolved
(placeholder) markets are counted as tradable too. -/
theorem claim_C3_amended (providers : List Provider) (errors : List ErrorObject)
    (marketResults : ResultObject) :
    (calculateReachableProvidersAndTotalMarkets providers errors marketResults).tradableMarkets =
      (calculateReachableProvidersAndTotalMarkets providers errors marketResults).totalMarkets := by
  unfold calculateReachableProvidersAndTotalMarkets
  have hfilter : ∀ l : List MarketData, l.filter isTradableJS = l := fun l =>
    List.filter_eq_self.mpr fun a _ => rfl
  simp only [hfilter]

/-- C7: `fetchAndProcessMarketData` returns exactly one entry per input
endpoint, in input order; the entry at position `i` is a function of
`endpoints[i]` and the oracle alone (so a failure at one endpoint cannot
remove or alter a sibling entry); and a failed listing yields an entry with
an empty market-data array and a single "Endpoint not available" error. -/
theorem claim_C7_results_barrier (net : Net) (endpoints : List String) :
    (fetchAndProcessMarketData net endpoints).length = endpoints.length ∧
    (∀ (i : Nat) (ep : String), endpoints[i]? = some ep →
      (fetchAndProcessMarketData net endpoints)[i]? = some (processEndpoint net ep)) ∧
    (∀ (i : Nat) (ep msg : String), endpoints[i]? = some ep → net.listing ep = .err msg →
      (fetchAndProcessMarketData net endpoints)[i]? =
        some ({ endpoint := { url := ep, data := [] },
                errors := [{ status := "Endpoint not available", message := some msg,
                             endpoint := ep }] } : ProcessResult)) := by
  refine ⟨by simp [fetchAndProcessMarketData], ?_, ?_⟩
  · intro i ep hep
    unfold fetchAndProcessMarketData
    rw [List.getElem?_map, hep, Option.map_some']
  · intro i ep msg hep hl
    unfold fetchAndProcessMarketData
    rw [List.getElem?_map, hep, Option.map_some']
    unfold processEndpoint
    rw [hl]
    rfl

/-- C7 witness: two endpoints against an all-failing oracle still yield two
entries, the first being the empty-market error entry. -/
theorem claim_C7_witness :
    (fetchAndProcessMarketData netDown ["http://a", "http://b"]).length = 2 ∧
    (fetchAndProcessMarketData netDown ["http://a", "http://b"])[0]? =
      some ({ endpoint := { url := "http://a", data := [] },
              errors := [{ status := "Endpoint not available", message := some "down",
                           endpoint := "http://a" }] } : ProcessResult) := by
  refine ⟨?_, ?_⟩
  · exact (claim_C7_results_barrier netDown ["http://a", "http://b"]).1
  · exact (claim_C7_results_barrier netDown ["http://a", "http://b"]).2.2 0 "http://a"
      "down" rfl rfl

/-- C9: the three `formatDecimals` scenarios: `"123456789"` at precision 8
renders as `"1.23456789"`; `"0"` renders as `"0"` at every precision; and
`"100000000"` at precision 8 collapses to the first zero, `precision - 2`
placeholder characters and the last zero, i.e. `"1.0******0"`. -/
theorem claim_C9_formatDecimals :
    formatDecimalsStr "123456789" 8 = "1.23456789" ∧
    (∀ p : Nat, formatDecimalsStr "0" p = "0") ∧
    formatDecimalsStr "100000000" 8 =
      "1." ++ "0" ++ String.mk (List.replicate (8 - 2) '*') ++ "0" := by
  refine ⟨by decide, ?_, by decide⟩
  intro p
  show formatDecimals (jsParseFloat "0") p = "0"
  have h0 : jsParseFloat "0" = some { num := 0, den := 1 } := by decide
  rw [h0]
  simp [formatDecimals, JsNum.isZero]

/-- C10: for every URL the modelled `new URL` parser accepts, a hostname not
ending in `.onion` leaves the input string untouched, while a hostname
ending in `.onion` is rewritten to the gateway prefix, the hostname portion
before the first `.onion`, and the pathname only — dropping scheme, port
and query from the rewritten URL. -/
theorem claim_C10_getProxyUrl (url : String) (u : URLParts)
    (hp : parseURL url = some u) :
    (strEndsWith u.hostname ".onion" = false → getProxyUrl url = some url) ∧
    (strEndsWith u.hostname ".onion" = true →
      getProxyUrl url =
        some (torProxyUrl ++ (strSplitOn u.hostname ".onion").headD "" ++ u.pathname)) := by
  constructor
  · intro h
    unfold getProxyUrl
    rw [hp]
    simp [h]
  · intro h
    unfold getProxyUrl
    rw [hp]
    simp [h]

/-- C10 witness: a clear-web URL with port and query is returned unchanged;
an onion URL is rewritten through the gateway. -/
theorem claim_C10_witness :
    getProxyUrl "http://example.com:999/v2/markets?q=1" =
      some "http://example.com:999/v2/markets?q=1" ∧
    getProxyUrl "https://abc.onion/v2/markets" =
      some (torProxyUrl ++ (strSplitOn "abc.onion" ".onion").headD "" ++ "/v2/markets") := by
  constructor
  · exact (claim_C10_getProxyUrl "http://example.com:999/v2/markets?q=1"
      { scheme := "http", hostname := "example.com", port := some "999",
        pathname := "/v2/markets", search := "?q=1" } (by decide)).1 (by decide)
  · exact (claim_C10_getProxyUrl "https://abc.onion/v2/markets"
      { scheme := "https", hostname := "abc.onion", port := none,
        pathname := "/v2/markets", search := "" } (by decide)).2 (by decide)

/-! ## Supporting lemmas for claims C1, C4 and C5 -/

theorem mem_of_getElem?kv {α : Type} (l : List α) (i : Nat) (a : α)
    (h : l[i]? = some a) : a ∈ l := by
  induction l generalizing i with
  | nil => cases i <;> simp at h
  | cons x xs ih =>
    cases i with
    | zero =>
      rw [List.getElem?_cons_zero] at h
      injection h with h
      exact h ▸ List.mem_cons_self x xs
    | succ j =>
      rw [List.getElem?_cons_succ] at h
      exact List.mem_cons_of_mem x (ih j h)

theorem flatMap_map_eq {α β γ : Type} (l : List α) (f : α → β) (g : β → List γ) :
    (l.map f).flatMap g = l.flatMap fun x => g (f x) := by
  induction l with
  | nil => rfl
  | cons x xs ih => simp [ih]

/-- The probes one splice step issues: the whole market list when the price
result has no balance field, nothing otherwise. -/
theorem spliceBalance_snd (net : Net) (endpoint : String)
    (markets : List (Nat × Market)) (r : PriceResult) :
    (spliceBalance net endpoint markets r).2 =
      if (priceBalance r).isNone then markets.map Prod.snd else [] := by
  by_cases h : (priceBalance r).isNone
  · rw [if_pos h]
    simp only [spliceBalance, if_pos h]
    split
    · split <;> rfl
    · rfl
  · rw [if_neg h]
    simp only [spliceBalance, if_neg h]

/-- The data component of `processMarkets`. -/
theorem processMarkets_data (net : Net) (endpoint : String) (markets : List Market) :
    (processMarkets net endpoint markets).endpoint.data =
      formatMarketData (tagFrom 0 markets)
        ((spliceBalances net endpoint (tagFrom 0 markets)
          (fetchPriceDataForMarkets net endpoint (tagFrom 0 markets))).1) := rfl

/-- The error component of `processMarkets`. -/
theorem processMarkets_errors (net : Net) (endpoint : String) (markets : List Market) :
    (processMarkets net endpoint markets).errors =
      (((spliceBalances net endpoint (tagFrom 0 markets)
        (fetchPriceDataForMarkets net endpoint (tagFrom 0 markets))).1).filter
          fun r => r.error.isSome).map
        fun r => handlePriceError endpoint (r.error.getD "") := rfl

/-- A successful listing routes `processEndpoint` into `processMarkets`. -/
theorem processEndpoint_ok (net : Net) (endpoint : String) (markets : List Market)
    (hl : net.listing endpoint = .ok (some markets)) :
    processEndpoint net endpoint = processMarkets net endpoint markets := by
  unfold processEndpoint
  rw [hl]

/-- The `v1` flag of one merged record: the flag of the matching price
result when it carries one, `false` otherwise — never `undefined`. -/
theorem formatOneMarket_v1 (prs : List PriceResult) (im : Nat × Market) :
    (formatOneMarket prs im).v1 =
      some (((prs.find? fun r => r.marketRef == im.1).bind PriceResult.v1).getD false) := by
  cases hf : prs.find? fun r => r.marketRef == im.1 with
  | none => simp [formatOneMarket, hf]
  | some r => cases hv : r.v1 <;> simp [formatOneMarket, hf, hv]

/-- The merged record of a market whose price result resolved to no price
object: placeholder balances, no spot price, placeholder minimum amount. -/
theorem formatOneMarket_of_priceless (prs : List PriceResult) (im : Nat × Market)
    (r : PriceResult) (hf : (prs.find? fun x => x.marketRef == im.1) = some r)
    (hp : r.price = none) :
    (formatOneMarket prs im).balances = some { baseAmount := "N/A", quoteAmount := "N/A" } ∧
    (formatOneMarket prs im).spotPrice = none ∧
    (formatOneMarket prs im).minTradeableAmount = "N/A" := by
  refine ⟨?_, ?_, ?_⟩ <;> simp [formatOneMarket, hf, hp, priceBalance]

/-- Characterization of the three-way consensus of the UI. -/
theorem v1Consensus_spec (ss : List (Option Bool)) :
    (v1Consensus ss = some true ↔ ss ≠ [] ∧ ∀ s ∈ ss, s = some true) ∧
    (v1Consensus ss = some false ↔ ss ≠ [] ∧ ∀ s ∈ ss, s = some false) ∧
    (v1Consensus ss = none ↔
      ¬(ss ≠ [] ∧ ∀ s ∈ ss, s = some true) ∧
      ¬(ss ≠ [] ∧ ∀ s ∈ ss, s = some false)) := by
  have hchar : ∀ b : Bool,
      ((ss.length > 0 ∧ ss.all fun s => s == some b) ↔
        (ss ≠ [] ∧ ∀ s ∈ ss, s = some b)) := by
    intro b
    constructor
    · rintro ⟨h1, h2⟩
      refine ⟨by simpa using List.length_pos.mp h1, ?_⟩
      intro s hs
      simpa using List.all_eq_true.mp h2 s hs
    · rintro ⟨h1, h2⟩
      refine ⟨List.length_pos.mpr h1, ?_⟩
      exact List.all_eq_true.mpr fun s hs => by simpa using h2 s hs
  unfold v1Consensus
  by_cases hT : ss.length > 0 ∧ ss.all fun s => s == some true
  · rw [if_pos hT]
    have hT2 := (hchar true).mp hT
    have hF2 : ¬(ss ≠ [] ∧ ∀ s ∈ ss, s = some false) := by
      rintro ⟨hne, hf⟩
      obtain ⟨s, hs⟩ := List.exists_mem_of_ne_nil ss hne
      have ht := hT2.2 s hs
      have h2 := hf s hs
      rw [ht] at h2
      simp at h2
    refine ⟨⟨fun _ => hT2, fun _ => rfl⟩, ?_, ?_⟩
    · constructor
      · intro h; simp at h
      · intro h; exact absurd h hF2
    · constructor
      · intro h; simp at h
      · rintro ⟨h, _⟩; exact absurd hT2 h
  · rw [if_neg hT]
    have hT2 : ¬(ss ≠ [] ∧ ∀ s ∈ ss, s = some true) := fun h => hT ((hchar true).mpr h)
    by_cases hF : ss.length > 0 ∧ ss.all fun s => s == some false
    · rw [if_pos hF]
      have hF2 := (hchar false).mp hF
      refine ⟨?_, ⟨fun _ => hF2, fun _ => rfl⟩, ?_⟩
      · constructor
        · intro h; simp at h
        · intro h; exact absurd h hT2
      · constructor
        · intro h; simp at h
        · rintro ⟨_, h⟩; exact absurd hF2 h
    · rw [if_neg hF]
      have hF2 : ¬(ss ≠ [] ∧ ∀ s ∈ ss, s = some false) := fun h => hF ((hchar false).mpr h)
      refine ⟨?_, ?_, by simp [hT2, hF2]⟩
      · constructor
        · intro h; simp at h
        · intro h; exact absurd h hT2
      · constructor
        · intro h; simp at h
        · intro h; exact absurd h hF2

/-! ## Claims C1, C4 and C5 -/

/-- An oracle with one listed market whose price and balance probes fail. -/
def netAllFail : Net :=
  { listing := fun _ => .ok (some [mA]),
    price := fun _ _ => .err "price down",
    balance := fun _ _ => .err "balance down" }

/-- C1 counterexample: a fetch cycle in which the only market's price probe
and balance probe both fail still produces a merged record with
`v1 = false`; the claim requires `undefined` (modelled `none`) when no
lookup for the market resolved. -/
theorem claim_C1_counterexample :
    ((processEndpoint netAllFail "http://e").endpoint.data.map MarketData.v1) =
      [some false] ∧ (some false : Option Bool) ≠ none := by
  refine ⟨by decide, by decide⟩

/-- A price result of a failed probe for the first market. -/
def prsC1 : List PriceResult :=
  [{ marketRef := 0, market := mA, price := none, error := some "x", v1 := none }]

/-- The tagged one-market listing matching `prsC1`. -/
def msC1 : List (Nat × Market) := [(0, mA)]

/-- The merged record `formatMarketData` builds from `msC1` and `prsC1`. -/
def recC1 : MarketData := formatOneMarket prsC1 (0, mA)

/-- C1 amended: the `v1` field of a merged market record is a plain boolean,
never `undefined`: it equals the `v1` marker of the matching price result
when that marker is present (the balance-splice loop sets it to `true` on a
legacy-shaped balance) and `false` otherwise — in particular `false`, not
`undefined`, when no lookup resolved.  The three-way consensus the claim
describes is computed per endpoint over these per-record booleans by the UI
(`v1Consensus`), for which the claimed trichotomy does hold. -/
theorem claim_C1_amended (markets : List (Nat × Market)) (priceResults : List PriceResult)
    (i t : Nat) (m : Market) (rec : MarketData)
    (hm : markets[i]? = some (t, m))
    (hr : (formatMarketData markets priceResults)[i]? = some rec) :
    (rec.v1 =
      some (((priceResults.find? fun r => r.marketRef == t).bind PriceResult.v1).getD false) ∧
     rec.v1 ≠ none) ∧
    (∀ ss : List (Option Bool),
      (v1Consensus ss = some true ↔ ss ≠ [] ∧ ∀ s ∈ ss, s = some true) ∧
      (v1Consensus ss = some false ↔ ss ≠ [] ∧ ∀ s ∈ ss, s = some false) ∧
      (v1Consensus ss = none ↔
        ¬(ss ≠ [] ∧ ∀ s ∈ ss, s = some true) ∧
        ¬(ss ≠ [] ∧ ∀ s ∈ ss, s = some false))) := by
  refine ⟨?_, v1Consensus_spec⟩
  unfold formatMarketData at hr
  rw [List.getElem?_map, hm, Option.map_some'] at hr
  injection hr with hr
  subst hr
  rw [formatOneMarket_v1]
  exact ⟨rfl, by simp⟩

/-- C1 witness: the amended statement at the concrete one-market cycle. -/
theorem claim_C1_amended_witness :
    recC1.v1 =
      some (((prsC1.find? fun r => r.marketRef == 0).bind PriceResult.v1).getD false) ∧
    recC1.v1 ≠ none :=
  (claim_C1_amended msC1 prsC1 0 0 mA recC1 rfl rfl).1

/-- C4 counterexample: for a market whose price probe failed (listing
succeeded), the merged record's `balances` is the placeholder object with
two `"N/A"` strings, not `null` as the claim states. -/
theorem claim_C4_counterexample :
    ((processEndpoint netAllFail "http://e").endpoint.data.map MarketData.balances) =
      [some { baseAmount := "N/A", quoteAmount := "N/A" }] ∧
    (some { baseAmount := "N/A", quoteAmount := "N/A" } : Option Balances) ≠ none := by
  refine ⟨by decide, by decide⟩

/-- The price result `fetchPriceDataForMarkets` builds for a failed probe. -/
def failedPrice (i : Nat) (m : Market) (msg : String) : PriceResult :=
  { marketRef := i, market := m, price := none, error := some msg, v1 := none }

/-- C4 amended: a market whose listing succeeded but whose own price probe
failed (and whose supplemental balance lookup did not return a
legacy-shaped balance, which would splice data in) still appears in the
endpoint output, at its position, with placeholder `"N/A"` balances (not
`null`), `spotPrice: null`, `minTradeableAmount: "N/A"`, and an error with
status exactly "Market not available" recorded against the endpoint. -/
theorem claim_C4_amended (net : Net) (endpoint : String) (markets : List Market)
    (i : Nat) (m : Market) (msg : String)
    (hl : net.listing endpoint = .ok (some markets))
    (hm : markets[i]? = some m)
    (hp : net.price endpoint m = .err msg)
    (hb : (((fetchBalanceDataForMarkets net endpoint (tagFrom 0 markets)).find? fun b =>
        b.market.baseAsset == m.baseAsset && b.market.quoteAsset == m.quoteAsset).bind
        nestedBalance) = none) :
    (processEndpoint net endpoint).endpoint.data.length = markets.length ∧
    (∃ rec : MarketData,
      (processEndpoint net endpoint).endpoint.data[i]? = some rec ∧
      rec.balances = some { baseAmount := "N/A", quoteAmount := "N/A" } ∧
      rec.spotPrice = none ∧
      rec.minTradeableAmount = "N/A") ∧
    ({ status := "Market not available", message := some msg,
       endpoint := endpoint } : ErrorObject) ∈ (processEndpoint net endpoint).errors := by
  rw [processEndpoint_ok net endpoint markets hl]
  have hten : (tagFrom 0 markets)[i]? = some (i, m) := by
    rw [tagFrom_getElem?, hm]
    simp
  have hprs0 : (fetchPriceDataForMarkets net endpoint (tagFrom 0 markets))[i]? =
      some (failedPrice i m msg) := by
    unfold fetchPriceDataForMarkets
    rw [List.getElem?_map, hten, Option.map_some']
    simp [hp, failedPrice]
  have hsplice : (spliceBalance net endpoint (tagFrom 0 markets) (failedPrice i m msg)).1 =
      failedPrice i m msg := by
    have hc : (priceBalance (failedPrice i m msg)).isNone = true := rfl
    simp only [spliceBalance, hc, if_pos]
    cases hfind : (fetchBalanceDataForMarkets net endpoint (tagFrom 0 markets)).find? fun b =>
        b.market.baseAsset == (failedPrice i m msg).market.baseAsset &&
        b.market.quoteAsset == (failedPrice i m msg).market.quoteAsset with
    | none => simp [hfind]
    | some bm =>
      have hfind2 : (fetchBalanceDataForMarkets net endpoint (tagFrom 0 markets)).find?
          (fun b => b.market.baseAsset == m.baseAsset &&
            b.market.quoteAsset == m.quoteAsset) = some bm := hfind
      rw [hfind2] at hb
      have hnb : nestedBalance bm = none := by simpa using hb
      simp [hfind, hnb]
  have hmap : ((spliceBalances net endpoint (tagFrom 0 markets)
      (fetchPriceDataForMarkets net endpoint (tagFrom 0 markets))).1) =
      ((fetchPriceDataForMarkets net endpoint (tagFrom 0 markets)).map
        (spliceBalance net endpoint (tagFrom 0 markets))).map Prod.fst := rfl
  have hfinal : ((spliceBalances net endpoint (tagFrom 0 markets)
      (fetchPriceDataForMarkets net endpoint (tagFrom 0 markets))).1)[i]? =
      some (failedPrice i m msg) := by
    rw [hmap, List.getElem?_map, List.getElem?_map, hprs0, Option.map_some',
      Option.map_some', hsplice]
  have hrefs : ∀ j r, ((spliceBalances net endpoint (tagFrom 0 markets)
      (fetchPriceDataForMarkets net endpoint (tagFrom 0 markets))).1)[j]? = some r →
      r.marketRef = 0 + j := by
    intro j r hjr
    rw [Nat.zero_add]
    exact pipeline_marketRef net endpoint markets j r hjr
  have hfindr : (((spliceBalances net endpoint (tagFrom 0 markets)
      (fetchPriceDataForMarkets net endpoint (tagFrom 0 markets))).1).find?
        fun r => r.marketRef == i) = some (failedPrice i m msg) := by
    rw [find?_marketRef _ 0 hrefs i]
    simpa using hfinal
  refine ⟨?_, ?_, ?_⟩
  · rw [processMarkets_data]
    unfold formatMarketData
    rw [List.length_map, tagFrom_length]
  · refine ⟨formatOneMarket ((spliceBalances net endpoint (tagFrom 0 markets)
      (fetchPriceDataForMarkets net endpoint (tagFrom 0 markets))).1) (i, m), ?_, ?_⟩
    · rw [processMarkets_data]
      unfold formatMarketData
      rw [List.getElem?_map, hten, Option.map_some']
    · exact formatOneMarket_of_priceless _ (i, m) _ hfindr rfl
  · rw [processMarkets_errors]
    have hmem : failedPrice i m msg ∈ ((spliceBalances net endpoint (tagFrom 0 markets)
        (fetchPriceDataForMarkets net endpoint (tagFrom 0 markets))).1) :=
      mem_of_getElem?kv _ i _ hfinal
    have hmemf : failedPrice i m msg ∈ (((spliceBalances net endpoint (tagFrom 0 markets)
        (fetchPriceDataForMarkets net endpoint (tagFrom 0 markets))).1).filter
          fun r => r.error.isSome) :=
      List.mem_filter.mpr ⟨hmem, rfl⟩
    exact List.mem_map.mpr ⟨_, hmemf, rfl⟩

/-- C4 witness: the amended statement at the concrete failing-probe cycle. -/
theorem claim_C4_amended_witness :
    ({ status := "Market not available", message := some "price down",
       endpoint := "http://e" } : ErrorObject) ∈
      (processEndpoint netAllFail "http://e").errors :=
  (claim_C4_amended netAllFail "http://e" [mA] 0 mA "price down" rfl rfl rfl
    (by decide)).2.2

/-- A price payload carrying no balance field. -/
def priceNoBal : PriceObj := { spotPrice := some 1, minTradableAmount := some "1",
                               balance := none }

/-- A price payload carrying a flat (v2) balance. -/
def priceFlatBal : PriceObj :=
  { spotPrice := some 2, minTradableAmount := some "1",
    balance := some (.flat { baseAmount := "10", quoteAmount := "20" }) }

/-- A balance payload in the nested legacy (v1) shape. -/
def priceV1Shape : PriceObj :=
  { spotPrice := none, minTradableAmount := none,
    balance := some (.nested { baseAmount := "7", quoteAmount := "8" }) }

/-- Two listed markets; only the first lacks a balance in its price data. -/
def netTwoMarkets : Net :=
  { listing := fun _ => .ok (some [mA, mB]),
    price := fun _ m => if m == mA then .ok (some priceNoBal) else .ok (some priceFlatBal),
    balance := fun _ _ => .err "no balance" }

/-- One listed market without balance; its balance probe returns a v1 shape. -/
def netV1Balance : Net :=
  { listing := fun _ => .ok (some [mA]),
    price := fun _ _ => .ok (some priceNoBal),
    balance := fun _ _ => .ok (some priceV1Shape) }

/-- C5 counterexample: with two markets of which only the first lacks a
balance field, the supplemental `/market/balance` fan-out probes BOTH
markets — the claim says the probe is issued for that specific market only,
not for the endpoint's other markets. -/
theorem claim_C5_counterexample :
    balanceProbeTrace netTwoMarkets "http://e" = [mA, mB] ∧ mB ≠ mA := by
  refine ⟨by decide, by decide⟩

/-- C5 amended: for each price result lacking a balance field the loop
issues one supplemental balance fetch covering ALL of the endpoint's
markets (`k` lacking results → `k · n` probes, every market probed); the
market's own balance is then selected from that fan-out by asset pair, and
when it carries the nested legacy (v1) shape the result is marked
`v1 = true` and the balance is spliced into the price as a flat balance
(with spot price defaulting to 0 and the minimum amount to "N/A"). -/
theorem claim_C5_amended (net : Net) (endpoint : String) (markets : List Market)
    (hl : net.listing endpoint = .ok (some markets)) :
    ((balanceProbeTrace net endpoint).length =
      ((fetchPriceDataForMarkets net endpoint (tagFrom 0 markets)).filter
        fun r => (priceBalance r).isNone).length * markets.length) ∧
    (0 < ((fetchPriceDataForMarkets net endpoint (tagFrom 0 markets)).filter
        fun r => (priceBalance r).isNone).length →
      ∀ m ∈ markets, m ∈ balanceProbeTrace net endpoint) ∧
    (∀ (i : Nat) (r : PriceResult) (inner : Balance),
      (fetchPriceDataForMarkets net endpoint (tagFrom 0 markets))[i]? = some r →
      (priceBalance r).isNone = true →
      (((fetchBalanceDataForMarkets net endpoint (tagFrom 0 markets)).find? fun b =>
          b.market.baseAsset == r.market.baseAsset &&
          b.market.quoteAsset == r.market.quoteAsset).bind nestedBalance) = some inner →
      ((spliceBalances net endpoint (tagFrom 0 markets)
        (fetchPriceDataForMarkets net endpoint (tagFrom 0 markets))).1)[i]? =
        some { r with
          v1 := some true,
          price := some
            { spotPrice := some ((r.price.bind PriceObj.spotPrice).getD 0),
              minTradableAmount :=
                some ((r.price.bind PriceObj.minTradableAmount).getD "N/A"),
              balance := some (.flat inner) } }) := by
  have htrace : balanceProbeTrace net endpoint =
      (fetchPriceDataForMarkets net endpoint (tagFrom 0 markets)).flatMap
        fun r => if (priceBalance r).isNone then markets else [] := by
    unfold balanceProbeTrace
    rw [hl]
    show ((fetchPriceDataForMarkets net endpoint (tagFrom 0 markets)).map
      (spliceBalance net endpoint (tagFrom 0 markets))).flatMap Prod.snd = _
    rw [flatMap_map_eq]
    congr 1
    funext r
    rw [spliceBalance_snd, tagFrom_map_snd]
  refine ⟨?_, ?_, ?_⟩
  · rw [htrace, flatMap_ite_length]
  · intro hk m hm
    have hne : ((fetchPriceDataForMarkets net endpoint (tagFrom 0 markets)).filter
        fun r => (priceBalance r).isNone) ≠ [] := by
      intro he
      rw [he] at hk
      simp at hk
    obtain ⟨r, hrmem⟩ := List.exists_mem_of_ne_nil _ hne
    obtain ⟨hrl, hrp⟩ := List.mem_filter.mp hrmem
    rw [htrace]
    exact List.mem_flatMap.mpr ⟨r, hrl, by rw [hrp]; exact hm⟩
  · intro i r inner hir hnone hbind
    have hmap : ((spliceBalances net endpoint (tagFrom 0 markets)
        (fetchPriceDataForMarkets net endpoint (tagFrom 0 markets))).1) =
        ((fetchPriceDataForMarkets net endpoint (tagFrom 0 markets)).map
          (spliceBalance net endpoint (tagFrom 0 markets))).map Prod.fst := rfl
    rw [hmap, List.getElem?_map, List.getElem?_map, hir, Option.map_some',
      Option.map_some']
    cases hfind : (fetchBalanceDataForMarkets net endpoint (tagFrom 0 markets)).find?
        fun b => b.market.baseAsset == r.market.baseAsset &&
          b.market.quoteAsset == r.market.quoteAsset with
    | none => rw [hfind] at hbind; simp at hbind
    | some bm =>
      rw [hfind] at hbind
      have hnb : nestedBalance bm = some inner := by simpa using hbind
      simp only [spliceBalance, if_pos hnone, hfind, hnb]

/-- C5 witness: the amended statement at the one-market v1-balance cycle. -/
theorem claim_C5_amended_witness :
    mA ∈ balanceProbeTrace netV1Balance "http://e" :=
  (claim_C5_amended netV1Balance "http://e" [mA] rfl).2.1 (by decide) mA (by decide)

/-! ## Supporting lemmas for claim C6 -/

theorem lookupEntry_mapUpdate_self (m : DupMap) (k : String) (eps : List String)
    (ns : List (Option String)) :
    lookupEntry (m.map fun kv =>
      if kv.1 == k then (kv.1, ⟨kv.2.endpoints ++ eps, kv.2.names ++ ns⟩) else kv) k =
      (lookupEntry m k).map fun v => ⟨v.endpoints ++ eps, v.names ++ ns⟩ := by
  induction m with
  | nil => rfl
  | cons kv tl ih =>
    by_cases hk : kv.1 == k
    · simp [lookupEntry, List.find?, hk]
    · have hk2 : (kv.1 == k) = false := by simpa using hk
      simp only [List.map_cons, hk2, if_neg, Bool.false_eq_true, ite_false]
      unfold lookupEntry at ih ⊢
      simp only [List.find?, hk2]
      exact ih

theorem lookupEntry_mapUpdate_other (m : DupMap) (k k2 : String) (h : k2 ≠ k)
    (eps : List String) (ns : List (Option String)) :
    lookupEntry (m.map fun kv =>
      if kv.1 == k then (kv.1, ⟨kv.2.endpoints ++ eps, kv.2.names ++ ns⟩) else kv) k2 =
      lookupEntry m k2 := by
  induction m with
  | nil => rfl
  | cons kv tl ih =>
    by_cases hk : kv.1 == k
    · have hkk : kv.1 = k := by simpa using hk
      have hk2 : (kv.1 == k2) = false := by simp [hkk]; exact fun he => h he.symm
      simp only [List.map_cons, hk, ite_true]
      unfold lookupEntry at ih ⊢
      simp only [List.find?, hk2]
      exact ih
    · have hkf : (kv.1 == k) = false := by simpa using hk
      simp only [List.map_cons, hkf, Bool.false_eq_true, ite_false]
      by_cases hk2 : kv.1 == k2
      · unfold lookupEntry
        simp [List.find?, hk2]
      · have hk2f : (kv.1 == k2) = false := by simpa using hk2
        unfold lookupEntry at ih ⊢
        simp only [List.find?, hk2f]
        exact ih

theorem lookupEntry_append (m m2 : DupMap) (k : String) :
    lookupEntry (m ++ m2) k =
      match lookupEntry m k with
      | some v => some v
      | none => lookupEntry m2 k := by
  induction m with
  | nil => simp [lookupEntry]
  | cons kv tl ih =>
    by_cases hk : kv.1 == k
    · simp [lookupEntry, List.find?, hk]
    · have hkf : (kv.1 == k) = false := by simpa using hk
      unfold lookupEntry at ih ⊢
      simp only [List.cons_append, List.find?, hkf]
      exact ih

theorem epsOf_pushAt_self (m : DupMap) (k : String) (eps : List String)
    (ns : List (Option String)) :
    epsOf (pushAt m k eps ns) k = epsOf m k ++ eps := by
  unfold pushAt
  by_cases h : (m.find? fun kv => kv.1 == k).isSome
  · rw [if_pos h]
    unfold epsOf
    rw [lookupEntry_mapUpdate_self]
    cases hv : lookupEntry m k with
    | none =>
      unfold lookupEntry at hv
      cases hf : m.find? fun kv => kv.1 == k with
      | none => rw [hf] at h; simp at h
      | some kv0 => rw [hf] at hv; simp at hv
    | some v0 => simp
  · rw [if_neg h]
    have hnone : lookupEntry m k = none := by
      unfold lookupEntry
      cases hf : m.find? fun kv => kv.1 == k with
      | none => rfl
      | some kv0 => rw [hf] at h; simp at h
    unfold epsOf
    rw [lookupEntry_append, hnone]
    simp [lookupEntry, List.find?, hnone]

theorem epsOf_pushAt_other (m : DupMap) (k k2 : String) (h : k2 ≠ k)
    (eps : List String) (ns : List (Option String)) :
    epsOf (pushAt m k eps ns) k2 = epsOf m k2 := by
  unfold pushAt
  by_cases hf : (m.find? fun kv => kv.1 == k).isSome
  · rw [if_pos hf]
    unfold epsOf
    rw [lookupEntry_mapUpdate_other m k k2 h]
  · rw [if_neg hf]
    unfold epsOf
    rw [lookupEntry_append]
    cases hv : lookupEntry m k2 with
    | some v0 => simp
    | none =>
      have hkk : (k == k2) = false := by
        simp
        exact fun he => h he.symm
      simp [lookupEntry, List.find?, hkk]

/-- Invariant of the signature registry: every registered signature holds
exactly the first endpoint seen with it, that endpoint occurs in the
processed prefix, its markets are non-empty and serialize to the key. -/
def InvMdm (p : ResultObject) (mdm : DupMap) : Prop :=
  ∀ k v, lookupEntry mdm k = some v →
    ∃ f fe, (f, fe) ∈ p ∧ v.endpoints = [f] ∧ serializeMarkets fe.markets = k ∧
      fe.markets ≠ []

/-- Invariant of the duplicates map: linking is symmetric, no endpoint links
itself, and linked endpoints occur in the processed prefix with non-empty,
identically-serialized markets. -/
def InvDup (p : ResultObject) (dup : DupMap) : Prop :=
  (∀ a b, b ∈ epsOf dup a → a ∈ epsOf dup b) ∧
  (∀ a, a ∉ epsOf dup a) ∧
  (∀ a b, b ∈ epsOf dup a →
    ∃ ea eb, (a, ea) ∈ p ∧ (b, eb) ∈ p ∧ ea.markets ≠ [] ∧ eb.markets ≠ [] ∧
      serializeMarkets ea.markets = serializeMarkets eb.markets)

theorem invMdm_mono (p q : ResultObject) (mdm : DupMap) (h : InvMdm p mdm) :
    InvMdm (p ++ q) mdm := by
  intro k v hkv
  obtain ⟨f, fe, hfp, h1, h2, h3⟩ := h k v hkv
  exact ⟨f, fe, List.mem_append_left q hfp, h1, h2, h3⟩

theorem invDup_mono (p q : ResultObject) (dup : DupMap) (h : InvDup p dup) :
    InvDup (p ++ q) dup := by
  refine ⟨h.1, h.2.1, ?_⟩
  intro a b hb
  obtain ⟨ea, eb, h1, h2, h3, h4, h5⟩ := h.2.2 a b hb
  exact ⟨ea, eb, List.mem_append_left q h1, List.mem_append_left q h2, h3, h4, h5⟩

theorem findDupStep_inv (p : ResultObject) (x : String) (xe : EndpointEntry)
    (st : DupState) (hx : x ∉ p.map Prod.fst)
    (h1 : InvMdm p st.marketDataMap) (h2 : InvDup p st.duplicates) :
    InvMdm (p ++ [(x, xe)]) (findDupStep st (x, xe)).marketDataMap ∧
    InvDup (p ++ [(x, xe)]) (findDupStep st (x, xe)).duplicates := by
  by_cases hemp : xe.markets.isEmpty
  · have hstep : findDupStep st (x, xe) = st := by
      unfold findDupStep
      rw [if_pos hemp]
    rw [hstep]
    exact ⟨invMdm_mono p [(x, xe)] _ h1, invDup_mono p [(x, xe)] _ h2⟩
  · have hne : xe.markets ≠ [] := by
      intro he
      rw [he] at hemp
      exact hemp rfl
    cases hfound : lookupEntry st.marketDataMap (serializeMarkets xe.markets) with
    | none =>
      have hstep : findDupStep st (x, xe) =
          ⟨st.marketDataMap ++
            [(serializeMarkets xe.markets, ⟨[x], [xe.providerName]⟩)],
           st.duplicates⟩ := by
        simp only [findDupStep, hemp, Bool.false_eq_true, ite_false, hfound]
      rw [hstep]
      refine ⟨?_, invDup_mono p [(x, xe)] _ h2⟩
      intro k v hkv
      rw [lookupEntry_append] at hkv
      cases hv0 : lookupEntry st.marketDataMap k with
      | some v0 =>
        rw [hv0] at hkv
        obtain ⟨f, fe, hfp, ha, hb, hc⟩ := h1 k v0 hv0
        injection hkv with hkv
        exact ⟨f, fe, List.mem_append_left _ hfp, hkv ▸ ha, hb, hc⟩
      | none =>
        rw [hv0] at hkv
        by_cases hkk : (serializeMarkets xe.markets == k) = true
        · have hkeq : serializeMarkets xe.markets = k := by simpa using hkk
          have hv : v = ⟨[x], [xe.providerName]⟩ := by
            unfold lookupEntry at hkv
            simp [List.find?, hkk] at hkv
            exact hkv.symm
          exact ⟨x, xe, List.mem_append_right _ (by simp), hv ▸ rfl, hkeq, hne⟩
        · have hkf : (serializeMarkets xe.markets == k) = false := by simpa using hkk
          unfold lookupEntry at hkv
          simp [List.find?, hkf] at hkv
    | some orig =>
      obtain ⟨f, fe, hfp, hoeps, hser, hfene⟩ := h1 _ _ hfound
      have hfk : f ∈ p.map Prod.fst := List.mem_map.mpr ⟨(f, fe), hfp, rfl⟩
      have hfx : f ≠ x := fun he => hx (he ▸ hfk)
      have hxf : x ≠ f := fun he => hfx he.symm
      have hstep : findDupStep st (x, xe) =
          ⟨st.marketDataMap,
           pushAt (pushAt st.duplicates x orig.endpoints orig.names) f [x]
             [xe.providerName]⟩ := by
        simp only [findDupStep, hemp, Bool.false_eq_true, ite_false, hfound, hoeps,
          List.foldl_cons, List.foldl_nil]
      rw [hstep]
      have hepsx : epsOf (pushAt (pushAt st.duplicates x orig.endpoints orig.names) f [x]
          [xe.providerName]) x = epsOf st.duplicates x ++ [f] := by
        rw [epsOf_pushAt_other _ f x hxf, epsOf_pushAt_self, hoeps]
      have hepsf : epsOf (pushAt (pushAt st.duplicates x orig.endpoints orig.names) f [x]
          [xe.providerName]) f = epsOf st.duplicates f ++ [x] := by
        rw [epsOf_pushAt_self, epsOf_pushAt_other _ x f hfx]
      have hepso : ∀ a, a ≠ x → a ≠ f →
          epsOf (pushAt (pushAt st.duplicates x orig.endpoints orig.names) f [x]
            [xe.providerName]) a = epsOf st.duplicates a := by
        intro a hax haf
        rw [epsOf_pushAt_other _ f a haf, epsOf_pushAt_other _ x a hax]
      have hsub : ∀ c, ∀ d ∈ epsOf st.duplicates c,
          d ∈ epsOf (pushAt (pushAt st.duplicates x orig.endpoints orig.names) f [x]
            [xe.providerName]) c := by
        intro c d hd
        by_cases hcx : c = x
        · subst hcx
          rw [hepsx]
          exact List.mem_append_left _ hd
        by_cases hcf : c = f
        · subst hcf
          rw [hepsf]
          exact List.mem_append_left _ hd
        · rw [hepso c hcx hcf]
          exact hd
      refine ⟨invMdm_mono p [(x, xe)] _ h1, ?_, ?_, ?_⟩
      · -- symmetry
        intro a b hb
        by_cases hax : a = x
        · subst hax
          rw [hepsx] at hb
          rcases List.mem_append.mp hb with hold | hnew
          · exact hsub b a (h2.1 a b hold)
          · have hbf : b = f := by simpa using hnew
            subst hbf
            rw [hepsf]
            exact List.mem_append_right _ (by simp)
        by_cases haf : a = f
        · subst haf
          rw [hepsf] at hb
          rcases List.mem_append.mp hb with hold | hnew
          · exact hsub b a (h2.1 a b hold)
          · have hbx : b = x := by simpa using hnew
            subst hbx
            rw [hepsx]
            exact List.mem_append_right _ (by simp)
        · rw [hepso a hax haf] at hb
          exact hsub b a (h2.1 a b hb)
      · -- irreflexivity
        intro a
        by_cases hax : a = x
        · subst hax
          rw [hepsx]
          intro hmem
          rcases List.mem_append.mp hmem with hold | hnew
          · exact h2.2.1 a hold
          · exact hxf (by simpa using hnew)
        by_cases haf : a = f
        · subst haf
          rw [hepsf]
          intro hmem
          rcases List.mem_append.mp hmem with hold | hnew
          · exact h2.2.1 a hold
          · exact hfx (by simpa using hnew)
        · rw [hepso a hax haf]
          exact h2.2.1 a
      · -- linked endpoints share a signature
        intro a b hb
        have hser2 : serializeMarkets xe.markets = serializeMarkets fe.markets := hser.symm
        have hxin : (x, xe) ∈ p ++ [(x, xe)] := List.mem_append_right _ (by simp)
        have hfin : (f, fe) ∈ p ++ [(x, xe)] := List.mem_append_left _ hfp
        have hlift : b ∈ epsOf st.duplicates a →
            ∃ ea eb, (a, ea) ∈ p ++ [(x, xe)] ∧ (b, eb) ∈ p ++ [(x, xe)] ∧
              ea.markets ≠ [] ∧ eb.markets ≠ [] ∧
              serializeMarkets ea.markets = serializeMarkets eb.markets := by
          intro hold
          obtain ⟨ea, eb, hh1, hh2, hh3, hh4, hh5⟩ := h2.2.2 a b hold
          exact ⟨ea, eb, List.mem_append_left _ hh1, List.mem_append_left _ hh2,
            hh3, hh4, hh5⟩
        by_cases hax : a = x
        · subst hax
          rw [hepsx] at hb
          rcases List.mem_append.mp hb with hold | hnew
          · exact hlift hold
          · have hbf : b = f := by simpa using hnew
            subst hbf
            exact ⟨xe, fe, hxin, hfin, hne, hfene, hser2⟩
        by_cases haf : a = f
        · subst haf
          rw [hepsf] at hb
          rcases List.mem_append.mp hb with hold | hnew
          · exact hlift hold
          · have hbx : b = x := by simpa using hnew
            subst hbx
            exact ⟨fe, xe, hfin, hxin, hfene, hne, hser2.symm⟩
        · rw [hepso a hax haf] at hb
          exact hlift hb

theorem findDup_loop (l : ResultObject) : ∀ (p : ResultObject) (st : DupState),
    ((p ++ l).map Prod.fst).Nodup →
    InvMdm p st.marketDataMap → InvDup p st.duplicates →
    InvMdm (p ++ l) (l.foldl findDupStep st).marketDataMap ∧
    InvDup (p ++ l) (l.foldl findDupStep st).duplicates := by
  induction l with
  | nil =>
    intro p st _ h1 h2
    simpa using ⟨h1, h2⟩
  | cons e tl ih =>
    intro p st hnd h1 h2
    obtain ⟨x, xe⟩ := e
    have hx : x ∉ p.map Prod.fst := by
      intro hxp
      rw [List.map_append] at hnd
      have hdisj := (List.nodup_append.mp hnd).2.2
      exact hdisj hxp (by simp)
    obtain ⟨h1', h2'⟩ := findDupStep_inv p x xe st hx h1 h2
    have hre : p ++ (x, xe) :: tl = (p ++ [(x, xe)]) ++ tl := by simp
    rw [hre] at hnd ⊢
    exact ih (p ++ [(x, xe)]) (findDupStep st (x, xe)) hnd h1' h2'

/-- C6: on a `ResultObject` (distinct endpoint keys, as a JS object has),
the duplicates map is symmetric — if A's entry lists B then B's entry
lists A, both endpoints occur in the input with non-empty market lists
whose serializations are identical — and irreflexive: no endpoint's entry
lists itself. -/
theorem claim_C6_symmetric_irreflexive (r : ResultObject)
    (hnd : (r.map Prod.fst).Nodup) :
    (∀ A B, B ∈ epsOf (findDuplicateMarkets r) A →
      A ∈ epsOf (findDuplicateMarkets r) B ∧
      ∃ ea eb, (A, ea) ∈ r ∧ (B, eb) ∈ r ∧ ea.markets ≠ [] ∧ eb.markets ≠ [] ∧
        serializeMarkets ea.markets = serializeMarkets eb.markets) ∧
    (∀ A, A ∉ epsOf (findDuplicateMarkets r) A) := by
  have hbase1 : InvMdm [] (⟨[], []⟩ : DupState).marketDataMap := by
    intro k v hkv
    simp [lookupEntry] at hkv
  have hbase2 : InvDup [] (⟨[], []⟩ : DupState).duplicates := by
    refine ⟨?_, ?_, ?_⟩ <;> intro a <;> simp [epsOf, lookupEntry]
  have h := findDup_loop r [] ⟨[], []⟩ (by simpa using hnd) hbase1 hbase2
  have hdup : InvDup r (r.foldl findDupStep ⟨[], []⟩).duplicates := by
    simpa using h.2
  refine ⟨?_, ?_⟩
  · intro A B hB
    exact ⟨hdup.1 A B hB, hdup.2.2 A B hB⟩
  · exact hdup.2.1

/-- Two endpoints serving identical non-empty market data. -/
def roTwoDup : ResultObject :=
  [("http://a", { markets := [mdDup], providerName := some "A" }),
   ("http://b", { markets := [mdDup], providerName := some "B" })]

set_option maxRecDepth 40000 in
/-- C6 witness: the symmetry statement at a concrete two-endpoint mirror. -/
theorem claim_C6_witness :
    "http://a" ∈ epsOf (findDuplicateMarkets roTwoDup) "http://b" ∧
    "http://a" ∉ epsOf (findDuplicateMarkets roTwoDup) "http://a" :=
  ⟨((claim_C6_symmetric_irreflexive roTwoDup (by decide)).1 "http://a" "http://b"
      (by decide)).1,
   (claim_C6_symmetric_irreflexive roTwoDup (by decide)).2 "http://a"⟩

/-! ## Supporting lemmas and claim C8 -/

theorem fetchAssetData_key (netAsset : String → Option AssetRaw) (h : String)
    (pr : String × AssetRaw) (hf : fetchAssetData netAsset h = some pr) : pr.1 = h := by
  unfold fetchAssetData at hf
  cases hn : netAsset h with
  | none => rw [hn] at hf; simp at hf
  | some data =>
    simp only [hn] at hf
    by_cases hl : (h == lbtcHash) = true
    · rw [if_pos hl] at hf
      injection hf with hf
      rw [← hf]
    · rw [if_neg hl] at hf
      injection hf with hf
      rw [← hf]

theorem assetMapEntry_key (netAsset : String → Option AssetRaw) (h : String)
    (e : String × AssetInfo) (he : assetMapEntry netAsset h = some e) : e.1 = h := by
  unfold assetMapEntry at he
  cases hf : fetchAssetData netAsset h with
  | none => rw [hf] at he; simp at he
  | some pr =>
    obtain ⟨hash, raw⟩ := pr
    have hk : hash = h := fetchAssetData_key netAsset h (hash, raw) hf
    simp only [hf] at he
    cases hname : raw.name with
    | none =>
      simp only [hname] at he
      exact Option.noConfusion he
    | some n =>
      cases hprec : raw.precision with
      | none =>
        simp only [hname, hprec] at he
        exact Option.noConfusion he
      | some pz =>
        simp only [hname, hprec] at he
        by_cases hc : hash ≠ "" ∧ n ≠ "" ∧ pz ≠ 0
        · rw [if_pos hc] at he
          injection he with he
          rw [← he, hk]
        · rw [if_neg hc] at he
          simp at he

theorem jsSetAdd_foldl_nodup (xs : List String) : ∀ seen : List String, seen.Nodup →
    (xs.foldl jsSetAdd seen).Nodup := by
  induction xs with
  | nil => intro seen h; exact h
  | cons x tl ih =>
    intro seen h
    rw [List.foldl_cons]
    refine ih (jsSetAdd seen x) ?_
    unfold jsSetAdd
    by_cases hx : x ∈ seen
    · rw [if_pos hx]; exact h
    · rw [if_neg hx]
      simp [List.nodup_append, h, hx]

theorem collectAssetHashes_nodup (r : ResultObject) : (collectAssetHashes r).Nodup :=
  jsSetAdd_foldl_nodup _ [] (by simp)

theorem fetchAllAssets_lookup_none (netAsset : String → Option AssetRaw)
    (hashes : List String) (h : String) (hnm : h ∉ hashes) :
    lookupAsset (hashes.flatMap fun x =>
      match assetMapEntry netAsset x with
      | some e => [e]
      | none => []) h = none := by
  induction hashes with
  | nil => rfl
  | cons x tl ih =>
    have hxh : h ≠ x := fun he => hnm (he ▸ List.mem_cons_self x tl)
    have htl : h ∉ tl := fun he => hnm (List.mem_cons_of_mem x he)
    rw [List.flatMap_cons]
    cases he : assetMapEntry netAsset x with
    | none => simpa using ih htl
    | some e =>
      have hk : e.1 = x := assetMapEntry_key netAsset x e he
      have hne : (e.1 == h) = false := by simp [hk]; exact fun hh => hxh hh.symm
      unfold lookupAsset at ih ⊢
      simp only [List.singleton_append, List.find?, hne]
      exact ih htl

theorem fetchAllAssets_lookup (netAsset : String → Option AssetRaw)
    (hashes : List String) (h : String) (hnd : hashes.Nodup) (hm : h ∈ hashes) :
    lookupAsset (hashes.flatMap fun x =>
      match assetMapEntry netAsset x with
      | some e => [e]
      | none => []) h = (assetMapEntry netAsset h).map Prod.snd := by
  induction hashes with
  | nil => simp at hm
  | cons x tl ih =>
    have hxtl : x ∉ tl := (List.nodup_cons.mp hnd).1
    have htl : tl.Nodup := (List.nodup_cons.mp hnd).2
    rw [List.flatMap_cons]
    by_cases hhx : h = x
    · subst hhx
      cases he : assetMapEntry netAsset h with
      | none =>
        have := fetchAllAssets_lookup_none netAsset tl h hxtl
        simpa using this
      | some e =>
        have hk : e.1 = h := assetMapEntry_key netAsset h e he
        unfold lookupAsset
        simp [List.find?, hk]
    · have hmtl : h ∈ tl := by
        cases List.mem_cons.mp hm with
        | inl hcontr => exact absurd hcontr hhx
        | inr hok => exact hok
      cases he : assetMapEntry netAsset x with
      | none => simpa using ih htl hmtl
      | some e =>
        have hk : e.1 = x := assetMapEntry_key netAsset x e he
        have hne : (e.1 == h) = false := by
          simp [hk]
          exact fun hh => hhx hh.symm
        unfold lookupAsset at ih ⊢
        simp only [List.singleton_append, List.find?, hne]
        exact ih htl hmtl

/-- The lookup result for an asset of the fetched JSON of C8's fixture. -/
def rawUSD : AssetRaw := { name := some "USD", precision := some 0, mempool_stats := "s" }

/-- The asset oracle of C8: one resolvable hash with zero precision. -/
def netAssetC8 : String → Option AssetRaw :=
  fun h => if h == "usd" then some rawUSD else none

/-- A merged record referencing the `usd` asset. -/
def mdUsd : MarketData := { mdDup with baseAsset := "usd", quoteAsset := "other" }

/-- A result set whose only market references the `usd` asset. -/
def roC8 : ResultObject := [("http://a", { markets := [mdUsd], providerName := some "A" })]

/-- C8 counterexample: the lookup for `"usd"` succeeds and the fetched entry
has a name and a precision (zero), so nothing is "missing" — yet the
identifier is absent from the returned mapping, because the code drops
every entry whose name or precision is FALSY, and the number `0` is falsy
in JS.  This refutes the claimed iff. -/
theorem claim_C8_counterexample :
    fetchAssetData netAssetC8 "usd" = some ("usd", rawUSD) ∧
    rawUSD.name = some "USD" ∧ rawUSD.precision = some 0 ∧
    lookupAsset (fetchAllAssetsData netAssetC8 roC8) "usd" = none := by
  refine ⟨by decide, by decide, by decide, by decide⟩

/-- C8 amended: an identifier referenced in the results is present in the
returned mapping iff its lookup succeeded AND its hash, name and precision
are all truthy — hash and name nonempty strings, precision nonzero (JS
falsiness, not mere absence); failed or dropped entries are silently
excluded, every other fetched entry is inserted with its fetched data. -/
theorem claim_C8_amended (netAsset : String → Option AssetRaw) (r : ResultObject)
    (h : String) (hm : h ∈ collectAssetHashes r) :
    lookupAsset (fetchAllAssetsData netAsset r) h =
      (assetMapEntry netAsset h).map Prod.snd ∧
    ((assetMapEntry netAsset h).isSome = true ↔
      ∃ hash raw, fetchAssetData netAsset h = some (hash, raw) ∧ hash ≠ "" ∧
        (∃ n, raw.name = some n ∧ n ≠ "") ∧
        (∃ pz, raw.precision = some pz ∧ pz ≠ 0)) := by
  constructor
  · exact fetchAllAssets_lookup netAsset (collectAssetHashes r) h
      (collectAssetHashes_nodup r) hm
  · unfold assetMapEntry
    cases hf : fetchAssetData netAsset h with
    | none => simp
    | some pr =>
      obtain ⟨hash, raw⟩ := pr
      cases hname : raw.name with
      | none => simp [hname]
      | some n =>
        cases hprec : raw.precision with
        | none => simp [hname, hprec]
        | some pz =>
          by_cases hc : hash ≠ "" ∧ n ≠ "" ∧ pz ≠ 0
          · simp only [hname, hprec]
            rw [if_pos hc]
            constructor
            · intro _
              exact ⟨hash, raw, rfl, hc.1, ⟨n, hname, hc.2.1⟩, ⟨pz, hprec, hc.2.2⟩⟩
            · intro _
              rfl
          · simp only [hname, hprec]
            rw [if_neg hc]
            constructor
            · intro hcontr
              simp at hcontr
            · rintro ⟨hash2, raw2, heq, hh, ⟨n2, hn2, hnne⟩, ⟨p2, hp2, hpne⟩⟩
              injection heq with heq
              injection heq with heq1 heq2
              subst heq1
              subst heq2
              rw [hname] at hn2
              injection hn2 with hn2
              subst hn2
              rw [hprec] at hp2
              injection hp2 with hp2
              subst hp2
              exact absurd ⟨hh, hnne, hpne⟩ hc

/-- C8 witness: the amended lookup equation at the concrete fixture. -/
theorem claim_C8_amended_witness :
    lookupAsset (fetchAllAssetsData netAssetC8 roC8) "usd" =
      (assetMapEntry netAssetC8 "usd").map Prod.snd :=
  (claim_C8_amended netAssetC8 roC8 "usd" (by decide)).1

end TDEX
